import Mathlib

/-!
Shallow embedding of the Ontario-Court-Cases CourtListener scrapers.

The repository holds two near-duplicate scraper modules:
`src/data_collection.py` (class `CourtListenerScraper`, suffix `DC` below) and
`src/caselistener/clean_data.py` (suffix `CD` below).  Both paginate the
`/dockets/` endpoint, resolve each docket's clusters and each cluster's
opinions, and assemble one flattened record per resolved opinion; the CD
variant additionally skips opinions whose `plain_text` is empty or
whitespace-only.

JSON bodies parsed from HTTP responses are modelled by the inductive `JVal`;
Python dict `.get` with a default is `jgetD`, Python truthiness is `jtruthy`.
The remote API is modelled by the trace of its responses: `get_dockets`
consumes a `List FetchOutcome` (one entry per GET it issues, `err` standing
for a raised `requests.exceptions.RequestException`, which covers both network
failure and a non-success status raised by `raise_for_status`), and cluster /
opinion resolution is a function from the extracted id to `Option JVal`
(`none` = the same exception, caught and turned into `None`).
Printing, `time.sleep` and the CD variant's text-file writes are I/O that does
not influence the returned record list and is not modelled.
-/

/-- A JSON value as produced by `response.json()` in the scrapers.  Numbers
are modelled as integers: the API fields the scrapers read (`id`,
`citation_count`) are integral. -/
inductive JVal where
  | null
  | bool (b : Bool)
  | num (n : Int)
  | str (s : String)
  | arr (xs : List JVal)
  | obj (kvs : List (String × JVal))

/-- Python truthiness (`if not x`) on a JSON-decoded value: `None`, `False`,
`0`, `""`, `[]` and `{}` are falsy, everything else truthy. -/
def jtruthy : JVal → Bool
  | .null => false
  | .bool b => b
  | .num n => n != 0
  | .str s => s != ""
  | .arr xs => !xs.isEmpty
  | .obj kvs => !kvs.isEmpty

/-- First value bound to key `k` in an association list (Python dicts have
unique keys, so first-match lookup is exact). -/
def assocFind (k : String) : List (String × JVal) → Option JVal
  | [] => none
  | (k2, v) :: rest => if k2 = k then some v else assocFind k rest

/-- Python `d.get(k)` on a JSON object: `some v` when the key is present
(`v` may be `JVal.null`), `none` when absent.  The scrapers only call `.get`
on decoded response bodies that are objects. -/
def jget : JVal → String → Option JVal
  | .obj kvs, k => assocFind k kvs
  | _, _ => none

/-- Python `d.get(k, default)`. -/
def jgetD (j : JVal) (k : String) (d : JVal) : JVal := (jget j k).getD d

/-- Iteration over a JSON array (`for x in xs`).  The scrapers iterate only
over `results` / `clusters` / `sub_opinions` values, which the API returns as
arrays; a non-array is modelled as yielding nothing. -/
def jitems : JVal → List JVal
  | .arr xs => xs
  | _ => []

/-- View a JSON value as a string.  The traversal applies this to cluster and
opinion reference URLs, which the API returns as strings; any other value
would make the Python code raise inside `rstrip` and is outside the modelled
domain, rendered here as `""`. -/
def jstrD : JVal → String
  | .str s => s
  | _ => ""

/-- Python `len` on a JSON array (used on `opinions_cited`). -/
def jlen : JVal → Nat
  | .arr xs => xs.length
  | _ => 0

/-- Python `str()` of a scalar JSON value, as interpolated by the f-string
building `cluster_url`.  The interpolated `cluster.get('id')` is a scalar
(an integer id) or `None`; composite values are not produced there and are
modelled as `""`. -/
def pyStrScalar : JVal → String
  | .str s => s
  | .num n => toString n
  | .null => "None"
  | .bool true => "True"
  | .bool false => "False"
  | .arr _ => ""
  | .obj _ => ""

/-- The whitespace characters stripped by Python's `str.strip()` /
`str.split()` with no arguments (ASCII subset; the texts involved are ASCII).
-/
def isPySpace (c : Char) : Bool :=
  c = ' ' || c = '\t' || c = '\n' || c = '\r' || c = '\x0b' || c = '\x0c'

/-- Python `s.strip()` on the character list of a string. -/
def pyStripL (l : List Char) : List Char :=
  ((l.dropWhile isPySpace).reverse.dropWhile isPySpace).reverse

/-- Word counting for `len(cleaned_text.split())`: number of maximal runs of
non-whitespace characters.  The flag records whether the previous character
was part of a word. -/
def countWordsAux : List Char → Bool → Nat
  | [], _ => 0
  | c :: cs, inWord =>
    if isPySpace c then countWordsAux cs false
    else (if inWord then 0 else 1) + countWordsAux cs true

/-- Python `len(s.split())`. -/
def pyWordCount (s : String) : Nat := countWordsAux s.data false

/-- Python `s.rstrip('/')`: remove every trailing `'/'`. -/
def rstripSlash (l : List Char) : List Char :=
  (l.reverse.dropWhile (fun c => c = '/')).reverse

/-- Python `s.split('/')`: split at every `'/'`, keeping empty chunks.  The
result is never empty (`"".split('/') == [""]`), so Python's `[-1]` indexing
cannot fail. -/
def splitSlash : List Char → List (List Char)
  | [] => [[]]
  | c :: cs =>
    if c = '/' then [] :: splitSlash cs
    else
      match splitSlash cs with
      | [] => [[c]]
      | t :: ts => (c :: t) :: ts

/-- The id extraction `url.rstrip('/').split('/')[-1]` shared by
`extract_cluster_id` / `extract_opinion_id` (data_collection.py) and
`extract_id_from_url` (clean_data.py), on character lists. -/
def extractIdL (l : List Char) : List Char :=
  (splitSlash (rstripSlash l)).getLastD []

/-- The id extraction on strings. -/
def extractId (s : String) : String := String.mk (extractIdL s.data)

/-- A character other than `'/'`. -/
def notSlash (c : Char) : Bool := c ≠ '/'

/-- Modelled from the claim's words, for comparison with `extractIdL`: the
last `'/'`-separated segment of the input after removing all trailing
slashes, read off directly as the maximal slash-free suffix of the
slash-stripped input. -/
def specLastSegment (l : List Char) : List Char :=
  ((rstripSlash l).reverse.takeWhile notSlash).reverse

/-- The outcome of one `session.get` issued by the docket pagination loop:
`ok body` is a success whose JSON body decoded to `body`; `err` is a raised
`requests.exceptions.RequestException` (network failure, or the non-success
status raised by `response.raise_for_status()`). -/
inductive FetchOutcome where
  | ok (body : JVal)
  | err

/-- One HTTP request as issued by the pagination loop: the URL fetched and
the query parameters passed alongside it. -/
structure Request where
  url : String
  params : List (String × String)
deriving DecidableEq

/-- The loop guard `limit is not None and len(dockets) >= limit`. -/
def capReached : Option Nat → Nat → Bool
  | some l, n => l ≤ n
  | none, _ => false

/-- `data.get('results', [])`, iterated as a list. -/
def pageResults (body : JVal) : List JVal :=
  jitems (jgetD body "results" (.arr []))

/-- `url = data.get('next')` followed by the `while url:` truthiness test:
the loop continues only when `next` is present and a nonempty string (the
cursor URL).  `null`, a missing key, or `""` end the pagination. -/
def nextUrl (body : JVal) : Option String :=
  match jget body "next" with
  | some (.str s) => if s = "" then none else some s
  | _ => none

/-- The `while url:` pagination loop shared verbatim by both scrapers'
`get_dockets` (src/data_collection.py lines 53-77, clean_data.py lines
39-53), run against the trace `resps` of the remote's responses, one per
request issued.  Returns the accumulated docket list and the trace of
requests issued.  An exhausted response trace simply ends the run (the
remainder of the remote's behaviour is unmodelled). -/
def getDocketsGo (limit : Option Nat) :
    List FetchOutcome → String → List (String × String) → List JVal →
    List JVal × List Request
  | [], _, _, acc => (acc, [])
  | .err :: _, url, params, acc =>
    if capReached limit acc.length then (acc, [])
    else (acc, [⟨url, params⟩])
  | .ok body :: rest, url, params, acc =>
    if capReached limit acc.length then (acc, [])
    else
      let acc2 := acc ++ pageResults body
      match nextUrl body with
      | none => (acc2, [⟨url, params⟩])
      | some u2 =>
        let r := getDocketsGo limit rest u2 [] acc2
        (r.1, ⟨url, params⟩ :: r.2)

/-- The fixed first-page URL `f"{self.base_url}/dockets/"`. -/
def docketsUrl : String := "https://www.courtlistener.com/api/rest/v4/dockets/"

/-- `params = {}` then `if court_id: params['court'] = court_id` — the court
filter is added only when truthy (a nonempty string). -/
def courtParams : Option String → List (String × String)
  | some cid => if cid = "" then [] else [("court", cid)]
  | none => []

/-- `CourtListenerScraper.get_dockets` of src/data_collection.py (lines
28-83): run the pagination loop, then `return dockets` when `limit is None`
and `return dockets[:limit]` otherwise.  Also returns the request trace. -/
def getDockets (limit : Option Nat) (court : Option String)
    (resps : List FetchOutcome) : List JVal × List Request :=
  let r := getDocketsGo limit resps docketsUrl (courtParams court) []
  (match limit with
   | none => r.1
   | some l => r.1.take l, r.2)

/-- `CourtListenerScraper.get_dockets` of src/caselistener/clean_data.py
(lines 31-57): identical loop, but the final return is `if limit: return
dockets[:limit]` / `return dockets`, so a falsy `limit` (`None` or `0`)
returns the untruncated accumulator. -/
def getDocketsCD (limit : Option Nat) (court : Option String)
    (resps : List FetchOutcome) : List JVal × List Request :=
  let r := getDocketsGo limit resps docketsUrl (courtParams court) []
  (match limit with
   | none => r.1
   | some l => if l = 0 then r.1 else r.1.take l, r.2)

/-- `xs.flatMap f` written out: the `cases_data.append` loops of both
`scrape_cases` implementations produce, level by level, the concatenation of
the records contributed by each docket / cluster / opinion in order. -/
def concatMap (f : α → List β) : List α → List β
  | [] => []
  | a :: as2 => f a ++ concatMap f as2

/-- The environment a traversal runs against: `get_cluster` and `get_opinion`
resolve an extracted id to the decoded JSON body (`none` when the GET raised
and the except-branch returned `None`), and `cleanHtml` is the external
`clean_html` collaborator of clean_data.py (BeautifulSoup text extraction,
out of the modelled core and kept uninterpreted). -/
structure Env where
  getCluster : String → Option JVal
  getOpinion : String → Option JVal
  cleanHtml : String → String

/-- The flattened output row built at src/data_collection.py lines 185-217.
Field values are the JSON values read from the three inputs (defaults
applied); `opinions_cited_count` is the `len` of a list and `cluster_url` an
f-string, so those two are a `Nat` and a `String`. -/
structure CrawlRecord where
  docket_id : JVal
  docket_number : JVal
  case_name : JVal
  court_id : JVal
  date_filed : JVal
  date_terminated : JVal
  nature_of_suit : JVal
  cause : JVal
  jurisdiction_type : JVal
  cluster_id : JVal
  cluster_date_filed : JVal
  cluster_case_name : JVal
  judges : JVal
  panel_str : JVal
  citation_count : JVal
  opinion_id : JVal
  opinion_type : JVal
  author_str : JVal
  opinion_text_html : JVal
  opinion_text_plain : JVal
  download_url : JVal
  opinions_cited_count : Nat
  absolute_url : JVal
  cluster_url : String

/-- The record assembly of src/data_collection.py lines 185-217, field by
field: `.get(k)` defaults to `None`, the fields written with an explicit
default get `''` / `0` / `[]`. -/
def assembleRecord (docket cluster opinion : JVal) : CrawlRecord where
  docket_id := jgetD docket "id" .null
  docket_number := jgetD docket "docket_number" .null
  case_name := jgetD docket "case_name" .null
  court_id := jgetD docket "court_id" .null
  date_filed := jgetD docket "date_filed" .null
  date_terminated := jgetD docket "date_terminated" .null
  nature_of_suit := jgetD docket "nature_of_suit" .null
  cause := jgetD docket "cause" .null
  jurisdiction_type := jgetD docket "jurisdiction_type" .null
  cluster_id := jgetD cluster "id" .null
  cluster_date_filed := jgetD cluster "date_filed" .null
  cluster_case_name := jgetD cluster "case_name" .null
  judges := jgetD cluster "judges" (.str "")
  panel_str := jgetD cluster "panel_str" (.str "")
  citation_count := jgetD cluster "citation_count" (.num 0)
  opinion_id := jgetD opinion "id" .null
  opinion_type := jgetD opinion "type" .null
  author_str := jgetD opinion "author_str" (.str "")
  opinion_text_html := jgetD opinion "html_with_citations" (.str "")
  opinion_text_plain := jgetD opinion "plain_text" (.str "")
  download_url := jgetD opinion "download_url" (.str "")
  opinions_cited_count := jlen (jgetD opinion "opinions_cited" (.arr []))
  absolute_url := jgetD docket "absolute_url" (.str "")
  cluster_url :=
    "https://www.courtlistener.com/opinion/"
      ++ pyStrScalar (jgetD cluster "id" .null) ++ "/"

/-- Records contributed by one opinion reference in data_collection.py's
`scrape_cases` (lines 176-220): extract the id, fetch; `if not opinion:
continue`; otherwise assemble and append one row. -/
def processOpinionDC (env : Env) (docket cluster : JVal)
    (opinionUrl : JVal) : List CrawlRecord :=
  match env.getOpinion (extractId (jstrD opinionUrl)) with
  | none => []
  | some o => if jtruthy o then [assembleRecord docket cluster o] else []

/-- Records contributed by one cluster reference in data_collection.py's
`scrape_cases` (lines 164-223): extract the id, fetch; `if not cluster:
continue`; otherwise process each `sub_opinions` entry in order. -/
def processClusterDC (env : Env) (docket : JVal)
    (clusterUrl : JVal) : List CrawlRecord :=
  match env.getCluster (extractId (jstrD clusterUrl)) with
  | none => []
  | some c =>
    if jtruthy c then
      concatMap (processOpinionDC env docket c)
        (jitems (jgetD c "sub_opinions" (.arr [])))
    else []

/-- Records contributed by one docket (data_collection.py lines 153-223):
`docket.get('clusters', [])`, each cluster processed in order (the
`if not cluster_urls: continue` shortcut contributes nothing, as does the
empty concatenation). -/
def processDocketDC (env : Env) (docket : JVal) : List CrawlRecord :=
  concatMap (processClusterDC env docket)
    (jitems (jgetD docket "clusters" (.arr [])))

/-- `CourtListenerScraper.scrape_cases` of src/data_collection.py (lines
133-225): fetch the capped docket list, then accumulate one row per opinion
resolved through all three levels, in traversal order. -/
def scrapeCasesDC (env : Env) (court : Option String) (limit : Option Nat)
    (resps : List FetchOutcome) : List CrawlRecord :=
  concatMap (processDocketDC env) (getDockets limit court resps).1

/-- The output row built at src/caselistener/clean_data.py lines 115-124. -/
structure CaseRec where
  case_name : JVal
  cluster_case_name : JVal
  docket_id : JVal
  date_filed : JVal
  judges : JVal
  text_file_path : String
  word_count : Nat
  download_url : JVal

/-- The row assembly of clean_data.py lines 115-124 (`os.path.join` on a
POSIX system is `/`-concatenation; `oid` is the extracted opinion id and
`cleaned` the `clean_html` output written to the text file). -/
def assembleCaseRec (outputDir oid cleaned : String)
    (docket cluster opinion : JVal) : CaseRec where
  case_name := jgetD opinion "case_name" .null
  cluster_case_name := jgetD cluster "case_name" .null
  docket_id := jgetD docket "id" .null
  date_filed := jgetD docket "date_filed" .null
  judges := jgetD cluster "judges" (.str "")
  text_file_path := outputDir ++ "/opinion_" ++ oid ++ ".txt"
  word_count := pyWordCount cleaned
  download_url := jgetD opinion "download_url" (.str "")

/-- `raw_text = opinion.get("plain_text", "")` viewed as the string that
`.strip()` is then called on (the API's `plain_text` is a string; a
non-string value would raise in Python and is outside the modelled domain).
-/
def rawPlainText (opinion : JVal) : String :=
  match jget opinion "plain_text" with
  | some (.str s) => s
  | _ => ""

/-- Rows contributed by one opinion reference in clean_data.py's
`scrape_cases` (lines 99-127): fetch; `if not opinion: continue`; the
content-quality gate `if not raw_text.strip(): continue`; then clean, write
the text file (I/O, unmodelled) and append one row. -/
def processOpinionCD (env : Env) (outputDir : String) (docket cluster : JVal)
    (opinionUrl : JVal) : List CaseRec :=
  let oid := extractId (jstrD opinionUrl)
  match env.getOpinion oid with
  | none => []
  | some o =>
    if jtruthy o then
      let rawText := rawPlainText o
      if (pyStripL rawText.data).isEmpty then []
      else
        [assembleCaseRec outputDir oid (env.cleanHtml rawText) docket cluster o]
    else []

/-- Rows contributed by one cluster reference in clean_data.py's
`scrape_cases` (lines 93-127). -/
def processClusterCD (env : Env) (outputDir : String) (docket : JVal)
    (clusterUrl : JVal) : List CaseRec :=
  match env.getCluster (extractId (jstrD clusterUrl)) with
  | none => []
  | some c =>
    if jtruthy c then
      concatMap (processOpinionCD env outputDir docket c)
        (jitems (jgetD c "sub_opinions" (.arr [])))
    else []

/-- Rows contributed by one docket (clean_data.py lines 90-127). -/
def processDocketCD (env : Env) (outputDir : String)
    (docket : JVal) : List CaseRec :=
  concatMap (processClusterCD env outputDir docket)
    (jitems (jgetD docket "clusters" (.arr [])))

/-- `CourtListenerScraper.scrape_cases` of src/caselistener/clean_data.py
(lines 83-129): fetch the capped docket list with the CD `get_dockets`, then
accumulate one row per opinion that resolves and passes the text gate. -/
def scrapeCasesCD (env : Env) (court : Option String) (limit : Option Nat)
    (outputDir : String) (resps : List FetchOutcome) : List CaseRec :=
  concatMap (processDocketCD env outputDir) (getDocketsCD limit court resps).1

section PaginationLemmas

/-- An uncapped run never trips the guard. -/
@[simp] theorem capReached_none (k : Nat) : capReached none k = false := rfl

/-- The guard for a cap of `n` is the comparison `n ≤ k`. -/
theorem capReached_some (n k : Nat) : capReached (some n) k = decide (n ≤ k) := rfl

/-- The pagination loop only ever appends to its accumulator. -/
theorem getDocketsGo_prefix (limit : Option Nat) (resps : List FetchOutcome) :
    ∀ url params acc, ∃ t,
      (getDocketsGo limit resps url params acc).1 = acc ++ t := by
  induction resps with
  | nil => intro url params acc; exact ⟨[], by simp [getDocketsGo]⟩
  | cons x rest ih =>
    intro url params acc
    cases x with
    | err =>
      cases h : capReached limit acc.length <;>
        exact ⟨[], by simp [getDocketsGo, h]⟩
    | ok body =>
      cases h : capReached limit acc.length
      · cases h2 : nextUrl body with
        | none => exact ⟨pageResults body, by simp [getDocketsGo, h, h2]⟩
        | some u2 =>
          obtain ⟨t, ht⟩ := ih u2 [] (acc ++ pageResults body)
          exact ⟨pageResults body ++ t, by simp [getDocketsGo, h, h2, ht]⟩
      · exact ⟨[], by simp [getDocketsGo, h]⟩

/-- Truncated-to-`n`, a capped run of the loop collects the same items as an
uncapped run: the cap only stops the loop after at least `n` items are in
hand. -/
theorem getDocketsGo_take (n : Nat) (resps : List FetchOutcome) :
    ∀ url params acc,
      ((getDocketsGo (some n) resps url params acc).1).take n
        = ((getDocketsGo none resps url params acc).1).take n := by
  induction resps with
  | nil => intro url params acc; simp [getDocketsGo]
  | cons x rest ih =>
    intro url params acc
    cases x with
    | err => cases h : capReached (some n) acc.length <;>
      simp [getDocketsGo, h]
    | ok body =>
      cases h : capReached (some n) acc.length
      · cases h2 : nextUrl body with
        | none => simp [getDocketsGo, h, h2]
        | some u2 =>
          simpa [getDocketsGo, h, h2] using ih u2 [] (acc ++ pageResults body)
      · have hn : n ≤ acc.length := by
          simpa [capReached_some] using h
        cases h2 : nextUrl body with
        | none =>
          simp [getDocketsGo, h, h2, List.take_append_of_le_length hn]
        | some u2 =>
          obtain ⟨t, ht⟩ :=
            getDocketsGo_prefix none rest u2 [] (acc ++ pageResults body)
          simp [getDocketsGo, h, h2, ht, ← List.append_assoc,
            List.take_append_of_le_length hn,
            List.take_append_of_le_length
              (Nat.le_trans hn (List.length_append _ _ ▸ Nat.le_add_right _ _))]

/-- With cap `0` the loop issues no request and collects nothing: the guard
`len(dockets) >= limit` fires before the first fetch. -/
theorem getDocketsGo_zero (resps : List FetchOutcome)
    (url : String) (params : List (String × String)) :
    getDocketsGo (some 0) resps url params [] = ([], []) := by
  cases resps with
  | nil => simp [getDocketsGo]
  | cons x rest => cases x <;> simp [getDocketsGo, capReached]

/-- The two `get_dockets` implementations return identical values: their
loops are textually the same, and the differing final `return` shapes agree
because a cap of `0` stops the loop with an empty accumulator. -/
theorem getDocketsCD_eq (limit : Option Nat) (court : Option String)
    (resps : List FetchOutcome) :
    getDocketsCD limit court resps = getDockets limit court resps := by
  cases limit with
  | none => rfl
  | some l =>
    cases l with
    | zero => simp [getDocketsCD, getDockets, getDocketsGo_zero]
    | succ k => simp [getDocketsCD, getDockets]

/-- A failed page fetch ends the loop with exactly the items accumulated
from the pages before it. -/
theorem getDocketsGo_err (limit : Option Nat) (oks rest : List FetchOutcome) :
    ∀ url params acc,
      (getDocketsGo limit (oks ++ .err :: rest) url params acc).1
        = (getDocketsGo limit oks url params acc).1 := by
  induction oks with
  | nil =>
    intro url params acc
    cases h : capReached limit acc.length <;> simp [getDocketsGo, h]
  | cons x oks2 ih =>
    intro url params acc
    cases x with
    | err => cases h : capReached limit acc.length <;> simp [getDocketsGo, h]
    | ok body =>
      cases h : capReached limit acc.length
      · cases h2 : nextUrl body with
        | none => simp [getDocketsGo, h, h2]
        | some u2 =>
          simpa [getDocketsGo, h, h2] using ih u2 [] (acc ++ pageResults body)
      · simp [getDocketsGo, h]

/-- The request trace is either empty or starts with the URL and parameters
the loop was entered with. -/
theorem getDocketsGo_trace_head (limit : Option Nat)
    (resps : List FetchOutcome) (url : String)
    (params : List (String × String)) (acc : List JVal) :
    (getDocketsGo limit resps url params acc).2 = []
      ∨ ∃ tr2, (getDocketsGo limit resps url params acc).2
          = ⟨url, params⟩ :: tr2 := by
  cases resps with
  | nil => exact Or.inl (by simp [getDocketsGo])
  | cons x rest =>
    cases x with
    | err =>
      cases h : capReached limit acc.length
      · exact Or.inr ⟨[], by simp [getDocketsGo, h]⟩
      · exact Or.inl (by simp [getDocketsGo, h])
    | ok body =>
      cases h : capReached limit acc.length
      · cases h2 : nextUrl body with
        | none => exact Or.inr ⟨[], by simp [getDocketsGo, h, h2]⟩
        | some u2 =>
          exact Or.inr ⟨(getDocketsGo limit rest u2 []
            (acc ++ pageResults body)).2, by simp [getDocketsGo, h, h2]⟩
      · exact Or.inl (by simp [getDocketsGo, h])

/-- Every request in the trace after the first carries empty parameters and
fetches exactly the cursor returned by the response to the previous request.
-/
theorem getDocketsGo_trace_idx (limit : Option Nat)
    (resps : List FetchOutcome) :
    ∀ url params acc (i : Nat) (r : Request),
      ((getDocketsGo limit resps url params acc).2)[i + 1]? = some r →
      r.params = [] ∧
        ∃ b, resps[i]? = some (.ok b) ∧ nextUrl b = some r.url := by
  induction resps with
  | nil => intro url params acc i r h; simp [getDocketsGo] at h
  | cons x rest ih =>
    intro url params acc i r h
    cases x with
    | err =>
      cases hc : capReached limit acc.length <;> simp [getDocketsGo, hc] at h
    | ok body =>
      cases hc : capReached limit acc.length
      · cases h2 : nextUrl body with
        | none => simp [getDocketsGo, hc, h2] at h
        | some u2 =>
          simp only [getDocketsGo, hc, h2, cond_false, if_neg,
            Bool.false_eq_true, not_false_iff, List.getElem?_cons_succ] at h
          cases i with
          | zero =>
            rcases getDocketsGo_trace_head limit rest u2 []
                (acc ++ pageResults body) with he | ⟨tr2, he⟩
            · rw [he] at h; simp at h
            · rw [he] at h
              simp only [List.getElem?_cons_zero, Option.some.injEq] at h
              subst h
              exact ⟨rfl, body, by simp, by simpa using h2⟩
          | succ j =>
            obtain ⟨hp, b, hb, hn⟩ := ih u2 [] (acc ++ pageResults body) j r h
            exact ⟨hp, b, by simpa using hb, hn⟩
      · simp [getDocketsGo, hc] at h

end PaginationLemmas

section StringLemmas

/-- The slash itself fails the slash-free test. -/
theorem notSlash_slash : notSlash '/' = false := rfl

/-- Any other character passes the slash-free test. -/
theorem notSlash_of_ne {c : Char} (h : ¬ c = '/') : notSlash c = true := by
  simp [notSlash, h]

/-- `takeWhile` passes over a first block that satisfies the predicate
throughout. -/
theorem takeWhile_append_of_all {p : α → Bool} {l1 : List α} (l2 : List α)
    (h : ∀ a ∈ l1, p a) :
    (l1 ++ l2).takeWhile p = l1 ++ l2.takeWhile p := by
  induction l1 with
  | nil => simp
  | cons a as ih =>
    have ha := h a (by simp)
    simp [List.takeWhile_cons, ha, ih (fun x hx => h x (by simp [hx]))]

/-- `takeWhile` never reaches past a failing element of the first block. -/
theorem takeWhile_append_of_exists {p : α → Bool} {l1 : List α} (l2 : List α)
    (h : ∃ a ∈ l1, p a = false) :
    (l1 ++ l2).takeWhile p = l1.takeWhile p := by
  induction l1 with
  | nil => rcases h with ⟨a, ha, _⟩; cases ha
  | cons a as ih =>
    cases hpa : p a with
    | false => simp [List.takeWhile_cons, hpa]
    | true =>
      rcases h with ⟨b, hb, hpb⟩
      rcases List.mem_cons.mp hb with rfl | hb2
      · rw [hpa] at hpb; cases hpb
      · simp [List.takeWhile_cons, hpa, ih ⟨b, hb2, hpb⟩]

/-- `getLastD` of a nonempty list ignores the default. -/
theorem getLastD_irrel {ts : List α} (h : ts ≠ []) (d1 d2 : α) :
    ts.getLastD d1 = ts.getLastD d2 := by
  cases ts with
  | nil => cases h rfl
  | cons a l => rw [List.getLastD_cons, List.getLastD_cons]

/-- Python-style split never yields an empty list of chunks. -/
theorem splitSlash_ne_nil (l : List Char) : splitSlash l ≠ [] := by
  cases l with
  | nil => simp [splitSlash]
  | cons c cs =>
    by_cases hc : c = '/'
    · simp [splitSlash, hc]
    · cases hs : splitSlash cs with
      | nil => simp [splitSlash, hc, hs]
      | cons t ts => simp [splitSlash, hc, hs]

/-- A slash-free string is a single chunk. -/
theorem splitSlash_no_slash : ∀ l : List Char,
    (∀ c ∈ l, c ≠ '/') → splitSlash l = [l] := by
  intro l
  induction l with
  | nil => intro _; rfl
  | cons c cs ih =>
    intro h
    have hc : ¬ c = '/' := h c (by simp)
    simp [splitSlash, hc, ih (fun x hx => h x (List.mem_cons_of_mem _ hx))]

/-- A string containing a slash splits into at least two chunks. -/
theorem splitSlash_two_le : ∀ l : List Char,
    '/' ∈ l → 2 ≤ (splitSlash l).length := by
  intro l
  induction l with
  | nil => intro h; cases h
  | cons c cs ih =>
    intro h
    by_cases hc : c = '/'
    · have h1 : 1 ≤ (splitSlash cs).length :=
        List.length_pos.mpr (splitSlash_ne_nil cs)
      simp [splitSlash, hc]
      omega
    · have hcs : '/' ∈ cs := by
        rcases List.mem_cons.mp h with h1 | h1
        · exact absurd h1.symm hc
        · exact h1
      have h2 := ih hcs
      cases hs : splitSlash cs with
      | nil => exact absurd hs (splitSlash_ne_nil cs)
      | cons t ts =>
        rw [hs] at h2
        simp only [List.length_cons] at h2
        simp [splitSlash, hc, hs]
        omega

/-- The last chunk of the Python split is the maximal slash-free suffix. -/
theorem splitSlash_getLastD : ∀ (l : List Char) (d : List Char),
    (splitSlash l).getLastD d = (l.reverse.takeWhile notSlash).reverse := by
  intro l
  induction l with
  | nil => intro d; rfl
  | cons c cs ih =>
    intro d
    by_cases hc : c = '/'
    · subst hc
      rw [show splitSlash ('/' :: cs) = [] :: splitSlash cs from by
        simp [splitSlash]]
      rw [List.getLastD_cons, ih []]
      rw [show ('/' :: cs).reverse = cs.reverse ++ ['/'] from by simp]
      by_cases hin : '/' ∈ cs
      · rw [takeWhile_append_of_exists _
          ⟨'/', by simpa using hin, notSlash_slash⟩]
      · have hall : ∀ a ∈ cs.reverse, notSlash a = true := by
          intro a ha
          exact notSlash_of_ne (fun he =>
            hin (he ▸ List.mem_reverse.mp ha))
        rw [takeWhile_append_of_all _ hall]
        rw [List.takeWhile_eq_self_iff.mpr hall]
        rw [show List.takeWhile notSlash ['/'] = [] from by
          simp [List.takeWhile_cons, notSlash_slash]]
        simp
    · cases hs : splitSlash cs with
      | nil => exact absurd hs (splitSlash_ne_nil cs)
      | cons t ts =>
        rw [show splitSlash (c :: cs) = (c :: t) :: ts from by
          simp [splitSlash, hc, hs]]
        rw [List.getLastD_cons]
        rw [show (c :: cs).reverse = cs.reverse ++ [c] from by simp]
        by_cases hin : '/' ∈ cs
        · have hlen := splitSlash_two_le cs hin
          rw [hs] at hlen
          simp only [List.length_cons] at hlen
          have hts : ts ≠ [] := by
            intro he; subst he; simp at hlen
          rw [getLastD_irrel hts (c :: t) t]
          have hih := ih t
          rw [hs, List.getLastD_cons] at hih
          rw [hih]
          rw [takeWhile_append_of_exists _
            ⟨'/', by simpa using hin, notSlash_slash⟩]
        · have he : t :: ts = [cs] :=
            hs.symm.trans (splitSlash_no_slash cs (fun x hx hx2 =>
              hin (hx2 ▸ hx)))
          injection he with h1 h2
          rw [h2, h1]
          have hall : ∀ a ∈ cs.reverse ++ [c], notSlash a = true := by
            intro a ha
            rcases List.mem_append.mp ha with ha1 | ha1
            · exact notSlash_of_ne (fun hx2 =>
                hin (hx2 ▸ List.mem_reverse.mp ha1))
            · have : a = c := by simpa using ha1
              exact notSlash_of_ne (this ▸ hc)
          rw [List.takeWhile_eq_self_iff.mpr hall]
          simp

/-- The id extraction computes the claim's description of it. -/
theorem extractIdL_eq_spec (l : List Char) :
    extractIdL l = specLastSegment l :=
  splitSlash_getLastD (rstripSlash l) []

/-- A trailing slash is removed before splitting, so it cannot change the
extracted id. -/
theorem rstripSlash_append_slash (l : List Char) :
    rstripSlash (l ++ ['/']) = rstripSlash l := by
  simp [rstripSlash, List.dropWhile]

end StringLemmas

section ConcatMapLemmas

/-- Concatenation distributes over the record-accumulating loops. -/
theorem concatMap_append (f : α → List β) (l1 l2 : List α) :
    concatMap f (l1 ++ l2) = concatMap f l1 ++ concatMap f l2 := by
  induction l1 with
  | nil => rfl
  | cons a as ih => simp [concatMap, ih]

/-- Membership in an accumulated loop output comes from one iteration. -/
theorem mem_concatMap {f : α → List β} {b : β} : ∀ {l : List α},
    b ∈ concatMap f l ↔ ∃ a ∈ l, b ∈ f a := by
  intro l
  induction l with
  | nil => simp [concatMap]
  | cons x xs ih => simp [concatMap, ih]

end ConcatMapLemmas

/-- Claim C2: for every item cap N ≥ 0 and every sequence of API pages,
`get_dockets` returns at most the first N items accumulated in page order
(it is exactly the N-prefix of what an uncapped run accumulates), and
returns exactly N items whenever the pages supply at least N items before
the cursor is exhausted. -/
theorem claim_C2 (n : Nat) (court : Option String)
    (resps : List FetchOutcome) :
    (getDockets (some n) court resps).1
        = ((getDockets none court resps).1).take n
    ∧ (getDockets (some n) court resps).1.length ≤ n
    ∧ (n ≤ ((getDockets none court resps).1).length →
        (getDockets (some n) court resps).1.length = n) := by
  have h := getDocketsGo_take n resps docketsUrl (courtParams court) []
  have h1 : (getDockets (some n) court resps).1
      = ((getDockets none court resps).1).take n := by
    simpa [getDockets] using h
  refine ⟨h1, ?_, ?_⟩
  · rw [h1]; exact List.length_take_le n _
  · intro hn
    rw [h1, List.length_take]
    omega

/-- Concrete two-of-three run exercising claim C2: one page supplying three
dockets, capped at two, returns exactly two. -/
def pageC2 : JVal :=
  .obj [("results", .arr [.num 1, .num 2, .num 3]), ("next", .null)]

theorem claim_C2_witness :
    2 ≤ ((getDockets none none [.ok pageC2]).1).length ∧
      (getDockets (some 2) none [.ok pageC2]).1.length = 2 :=
  ⟨by decide, (claim_C2 2 none [.ok pageC2]).2.2 (by decide)⟩

/-- Claim C4: a network failure or non-success HTTP status on any page fetch
does not raise past `get_dockets` (the model is a total function): the
pagination ends at the failing page and the items accumulated from every
previously fetched page are still returned — the result with the failing
page equals the result over just the preceding pages.  The logging is
console I/O outside the modelled value. -/
theorem claim_C4 (limit : Option Nat) (court : Option String)
    (oks rest : List FetchOutcome) :
    (getDockets limit court (oks ++ .err :: rest)).1
      = (getDockets limit court oks).1 := by
  have h := getDocketsGo_err limit oks rest docketsUrl (courtParams court) []
  cases limit with
  | none => simpa [getDockets] using h
  | some l => simp [getDockets, h]

/-- Claim C7: the caller-supplied query parameters are sent only with the
first page request (which targets the fixed dockets URL); every request
after the first carries an empty parameter set and its URL is exactly the
cursor returned by the previous page's response. -/
theorem claim_C7 (limit : Option Nat) (court : Option String)
    (resps : List FetchOutcome) :
    (∀ r0 : Request, ((getDockets limit court resps).2).head? = some r0 →
        r0.url = docketsUrl ∧ r0.params = courtParams court)
    ∧ (∀ (i : Nat) (r : Request),
        ((getDockets limit court resps).2)[i + 1]? = some r →
        r.params = [] ∧
          ∃ b, resps[i]? = some (.ok b) ∧ nextUrl b = some r.url) := by
  have htr : (getDockets limit court resps).2
      = (getDocketsGo limit resps docketsUrl (courtParams court) []).2 := rfl
  constructor
  · intro r0 h0
    rw [htr] at h0
    rcases getDocketsGo_trace_head limit resps docketsUrl
        (courtParams court) [] with he | ⟨tr2, he⟩
    · rw [he] at h0; cases h0
    · rw [he] at h0
      simp only [List.head?_cons, Option.some.injEq] at h0
      subst h0
      exact ⟨rfl, rfl⟩
  · intro i r h
    rw [htr] at h
    exact getDocketsGo_trace_idx limit resps docketsUrl
      (courtParams court) [] i r h

/-- First page of the concrete run exercising claim C7: one result and a
cursor to a second page. -/
def pageC7a : JVal :=
  .obj [("results", .arr [.num 1]), ("next", .str "https://page2/")]

/-- Second page of the concrete run exercising claim C7: one result and no
further cursor. -/
def pageC7b : JVal :=
  .obj [("results", .arr [.num 2]), ("next", .null)]

theorem claim_C7_witness :
    (⟨"https://page2/", ([] : List (String × String))⟩ : Request).params = []
    ∧ ∃ b, ([FetchOutcome.ok pageC7a, FetchOutcome.ok pageC7b])[0]?
          = some (.ok b)
        ∧ nextUrl b
          = some (⟨"https://page2/", ([] : List (String × String))⟩ :
              Request).url :=
  (claim_C7 none (some "scotus") [.ok pageC7a, .ok pageC7b]).2 0
    ⟨"https://page2/", []⟩ (by decide)

/-- Claim C8: with an item cap of exactly 0, both implementations of
`get_dockets` return the empty list and issue no HTTP request at all — the
cap guard fires before the first page fetch, so the request trace is empty.
-/
theorem claim_C8 (court : Option String) (resps : List FetchOutcome) :
    getDockets (some 0) court resps = ([], [])
      ∧ getDocketsCD (some 0) court resps = ([], []) := by
  have h := getDocketsGo_zero resps docketsUrl (courtParams court)
  exact ⟨by simp [getDockets, h], by simp [getDocketsCD, h]⟩

/-- Claim C9: the reference-id extraction returns the last `'/'`-separated
segment of the URL after removing all trailing slashes, and appending one
more trailing slash never changes the extracted id. -/
theorem claim_C9 (u : String) :
    extractId u = String.mk (specLastSegment u.data)
      ∧ extractId (u ++ "/") = extractId u := by
  constructor
  · simp [extractId, extractIdL_eq_spec]
  · have hd : (u ++ "/").data = u.data ++ ['/'] := by
      simp [String.data_append]
    simp [extractId, hd, extractIdL, rstripSlash_append_slash]

/-- A string of whitespace only strips to nothing. -/
theorem pyStripL_all_space {l : List Char} (h : ∀ x ∈ l, isPySpace x) :
    pyStripL l = [] := by
  have h1 : l.dropWhile isPySpace = [] := by
    rw [List.dropWhile_eq_nil_iff]
    exact h
  simp [pyStripL, h1]

/-- Scenario docket for claim C1: one cluster reference. -/
def docketC1 : JVal :=
  .obj [("id", .num 7), ("case_name", .str "Foo v Bar"),
    ("date_filed", .str "2020-01-01"),
    ("clusters", .arr [.str "https://api/clusters/100/"])]

/-- Scenario cluster for claim C1: two opinion references, A then B. -/
def clusterC1 : JVal :=
  .obj [("id", .num 100), ("case_name", .str "Foo v Bar"),
    ("judges", .str "Judge A"),
    ("sub_opinions", .arr [.str "https://api/opinions/1/",
      .str "https://api/opinions/2/"])]

/-- Scenario opinion A for claim C1: non-empty plain text. -/
def opinionC1A : JVal :=
  .obj [("id", .num 1), ("plain_text", .str "Hello world"),
    ("case_name", .str "Foo v Bar"), ("download_url", .str "https://dl/a")]

/-- Scenario opinion B for claim C1: empty plain text. -/
def opinionC1B : JVal :=
  .obj [("id", .num 2), ("plain_text", .str "")]

/-- Scenario environment for claim C1. -/
def envC1 : Env where
  getCluster := fun cid => if cid = "100" then some clusterC1 else none
  getOpinion := fun oid =>
    if oid = "1" then some opinionC1A
    else if oid = "2" then some opinionC1B else none
  cleanHtml := fun s => s

/-- Scenario docket page for claim C1. -/
def pageC1 : JVal := .obj [("results", .arr [docketC1]), ("next", .null)]

/-- The single record the claim C1 scenario must produce, for opinion A
(opinion id 1, as its text file path shows). -/
def recC1 : CaseRec :=
  ⟨.str "Foo v Bar", .str "Foo v Bar", .num 7, .str "2020-01-01",
    .str "Judge A", "out/opinion_1.txt", 2, .str "https://dl/a"⟩

/-- Claim C1, amended: the empty-text skip holds of clean_data.py's
traversal only — an opinion that resolves but whose `plain_text` is empty
or whitespace-only contributes no record there (the content-quality gate at
clean_data.py lines 105-107), and in the scenario where a cluster lists
opinion A with non-empty text and opinion B with empty text, that traversal
emits exactly one record, for A.  data_collection.py's `scrape_cases` has
no such gate (its opinion loop checks only `if not opinion`), so the claim
as frozen fails there; see the counterexample below. -/
theorem claim_C1 :
    (∀ (env : Env) (outputDir : String) (d c ourl o : JVal) (s : String),
        env.getOpinion (extractId (jstrD ourl)) = some o →
        jget o "plain_text" = some (.str s) →
        s.data.all isPySpace = true →
        processOpinionCD env outputDir d c ourl = [])
    ∧ scrapeCasesCD envC1 (some "scotus") (some 5) "out" [.ok pageC1]
        = [recC1] := by
  constructor
  · intro env outputDir d c ourl o s h1 h2 h3
    have hs : rawPlainText o = s := by simp [rawPlainText, h2]
    have hstrip : pyStripL s.data = [] :=
      pyStripL_all_space (fun x hx => List.all_eq_true.mp h3 x hx)
    cases ht : jtruthy o
    · simp [processOpinionCD, h1, ht]
    · simp [processOpinionCD, h1, ht, hs, hstrip]
  · rfl

theorem claim_C1_witness :
    processOpinionCD envC1 "out" docketC1 clusterC1
        (.str "https://api/opinions/2/") = [] :=
  claim_C1.1 envC1 "out" docketC1 clusterC1 (.str "https://api/opinions/2/")
    opinionC1B "" (by rfl) (by rfl) (by rfl)

/-- Counterexample to claim C1 as frozen: the claim also cites
data_collection.py's `scrape_cases` (lines 176-220), but that traversal has
no text gate.  Run on the claim's own scenario — opinion A (id 1) with
non-empty text, opinion B (id 2) with `plain_text = ""` — it emits two
records, the second of them for the empty-text opinion B, not the claimed
single record for A. -/
theorem claim_C1_counterexample :
    jget opinionC1B "plain_text" = some (.str "")
    ∧ (scrapeCasesDC envC1 (some "scotus") (some 5) [.ok pageC1]).map
        (fun r => r.opinion_id) = [.num 1, .num 2] :=
  ⟨rfl, rfl⟩

/-- Claim C3: every emitted record comes from a docket in the fetched list,
a cluster that was fetched successfully (and parsed truthy), and an opinion
that was fetched successfully (and parsed truthy); a cluster whose
resolution fails contributes no record at all, whatever its K opinion
references; and the traversal is a per-docket concatenation, so one
docket's outcome never affects the records of the dockets around it. -/
theorem claim_C3 (env : Env) (court : Option String) (limit : Option Nat)
    (resps : List FetchOutcome) :
    (∀ rec ∈ scrapeCasesDC env court limit resps,
        ∃ d ∈ (getDockets limit court resps).1,
          ∃ cu ∈ jitems (jgetD d "clusters" (.arr [])),
            ∃ c, env.getCluster (extractId (jstrD cu)) = some c
              ∧ jtruthy c = true
              ∧ ∃ ou ∈ jitems (jgetD c "sub_opinions" (.arr [])),
                  ∃ o, env.getOpinion (extractId (jstrD ou)) = some o
                    ∧ jtruthy o = true
                    ∧ rec = assembleRecord d c o)
    ∧ (∀ (d cu : JVal), env.getCluster (extractId (jstrD cu)) = none →
        processClusterDC env d cu = [])
    ∧ (∀ (ds1 ds2 : List JVal) (d : JVal),
        concatMap (processDocketDC env) (ds1 ++ d :: ds2)
          = concatMap (processDocketDC env) ds1 ++ processDocketDC env d
              ++ concatMap (processDocketDC env) ds2) := by
  refine ⟨?_, ?_, ?_⟩
  · intro rec hrec
    unfold scrapeCasesDC at hrec
    obtain ⟨d, hd, hrec⟩ := mem_concatMap.mp hrec
    unfold processDocketDC at hrec
    obtain ⟨cu, hcu, hrec⟩ := mem_concatMap.mp hrec
    unfold processClusterDC at hrec
    rcases hgc : env.getCluster (extractId (jstrD cu)) with _ | c
    · rw [hgc] at hrec; simp at hrec
    · rw [hgc] at hrec
      cases htc : jtruthy c
      · simp [htc] at hrec
      · simp only [htc, if_true] at hrec
        obtain ⟨ou, hou, hrec⟩ := mem_concatMap.mp hrec
        unfold processOpinionDC at hrec
        rcases hgo : env.getOpinion (extractId (jstrD ou)) with _ | o
        · rw [hgo] at hrec; simp at hrec
        · rw [hgo] at hrec
          cases hto : jtruthy o
          · simp [hto] at hrec
          · simp only [hto, if_true, List.mem_singleton] at hrec
            exact ⟨d, hd, cu, hcu, c, hgc, htc,
              ou, hou, o, hgo, hto, hrec⟩
  · intro d cu h
    simp [processClusterDC, h]
  · intro ds1 ds2 d
    simp [concatMap_append, concatMap, List.append_assoc]

/-- Environment where every cluster resolution fails, used to exercise
claim C3. -/
def envC3 : Env where
  getCluster := fun _ => none
  getOpinion := fun _ => none
  cleanHtml := fun s => s

theorem claim_C3_witness :
    processClusterDC envC3 (JVal.obj [])
        (.str "https://api/clusters/5/") = [] :=
  (claim_C3 envC3 none none []).2.1 (JVal.obj [])
    (.str "https://api/clusters/5/") (by rfl)

/-- Claim C5: the traversal output is a pure function of the remote's
responses and the configuration — two runs against environments that answer
every resolution and cleaning request identically, with the same docket
pages, court filter and limit, produce element-by-element identical record
sequences, for both scraper implementations. -/
theorem claim_C5 (e1 e2 : Env)
    (h1 : ∀ u, e1.getCluster u = e2.getCluster u)
    (h2 : ∀ u, e1.getOpinion u = e2.getOpinion u)
    (h3 : ∀ s, e1.cleanHtml s = e2.cleanHtml s)
    (court : Option String) (limit : Option Nat) (outputDir : String)
    (resps : List FetchOutcome) :
    scrapeCasesDC e1 court limit resps = scrapeCasesDC e2 court limit resps
    ∧ scrapeCasesCD e1 court limit outputDir resps
        = scrapeCasesCD e2 court limit outputDir resps := by
  have he : e1 = e2 := by
    cases e1
    cases e2
    simp only [Env.mk.injEq]
    exact ⟨funext h1, funext h2, funext h3⟩
  subst he
  exact ⟨rfl, rfl⟩

theorem claim_C5_witness :
    scrapeCasesDC envC1 (some "scotus") (some 5) [.ok pageC1]
      = scrapeCasesDC envC1 (some "scotus") (some 5) [.ok pageC1] :=
  (claim_C5 envC1 envC1 (fun _ => rfl) (fun _ => rfl) (fun _ => rfl)
    (some "scotus") (some 5) "out" [.ok pageC1]).1

/-- Claim C6: in the assembled records, every input field the assemblers
read with an explicit default — `judges`, `panel_str`, `citation_count`,
`author_str`, `html_with_citations`, `plain_text`, `download_url`,
`opinions_cited`, `absolute_url` in data_collection.py, and `judges`,
`download_url` in clean_data.py — is replaced by the empty string or a zero
count when the key is missing from the input object, never by a null; in
particular an opinion missing `author_str` yields `author_str = ""`. -/
theorem claim_C6 (d c o : JVal) (outputDir oid cleaned : String) :
    (jget c "judges" = none →
        (assembleRecord d c o).judges = .str "")
    ∧ (jget c "panel_str" = none →
        (assembleRecord d c o).panel_str = .str "")
    ∧ (jget c "citation_count" = none →
        (assembleRecord d c o).citation_count = .num 0)
    ∧ (jget o "author_str" = none →
        (assembleRecord d c o).author_str = .str "")
    ∧ (jget o "html_with_citations" = none →
        (assembleRecord d c o).opinion_text_html = .str "")
    ∧ (jget o "plain_text" = none →
        (assembleRecord d c o).opinion_text_plain = .str "")
    ∧ (jget o "download_url" = none →
        (assembleRecord d c o).download_url = .str "")
    ∧ (jget o "opinions_cited" = none →
        (assembleRecord d c o).opinions_cited_count = 0)
    ∧ (jget d "absolute_url" = none →
        (assembleRecord d c o).absolute_url = .str "")
    ∧ (jget c "judges" = none →
        (assembleCaseRec outputDir oid cleaned d c o).judges = .str "")
    ∧ (jget o "download_url" = none →
        (assembleCaseRec outputDir oid cleaned d c o).download_url
          = .str "") := by
  refine ⟨?_, ?_, ?_, ?_, ?_, ?_, ?_, ?_, ?_, ?_, ?_⟩ <;>
    (intro h; simp [assembleRecord, assembleCaseRec, jgetD, jlen, h])

theorem claim_C6_witness :
    (assembleRecord (JVal.obj []) (JVal.obj [])
        (JVal.obj [("id", .num 1)])).author_str = .str "" :=
  (claim_C6 (JVal.obj []) (JVal.obj []) (JVal.obj [("id", .num 1)])
    "out" "1" "text").2.2.2.1 (by rfl)

/-- Claim C10: a cluster or opinion whose fetch succeeds at the HTTP level
but parses to a Python-falsy value (such as the empty JSON object) is
skipped exactly like a failed fetch, in both implementations: it
contributes no record, and since each level's output is a concatenation
over siblings, the siblings before and after it are processed unchanged. -/
theorem claim_C10 (env : Env) (outputDir : String) :
    (∀ (d cu c : JVal), env.getCluster (extractId (jstrD cu)) = some c →
        jtruthy c = false →
        processClusterDC env d cu = []
          ∧ processClusterCD env outputDir d cu = [])
    ∧ (∀ (d c ou o : JVal), env.getOpinion (extractId (jstrD ou)) = some o →
        jtruthy o = false →
        processOpinionDC env d c ou = []
          ∧ processOpinionCD env outputDir d c ou = [])
    ∧ (∀ (d : JVal) (cus1 cus2 : List JVal) (cu : JVal),
        concatMap (processClusterDC env d) (cus1 ++ cu :: cus2)
          = concatMap (processClusterDC env d) cus1
            ++ processClusterDC env d cu
            ++ concatMap (processClusterDC env d) cus2) := by
  refine ⟨?_, ?_, ?_⟩
  · intro d cu c h1 h2
    exact ⟨by simp [processClusterDC, h1, h2],
      by simp [processClusterCD, h1, h2]⟩
  · intro d c ou o h1 h2
    exact ⟨by simp [processOpinionDC, h1, h2],
      by simp [processOpinionCD, h1, h2]⟩
  · intro d cus1 cus2 cu
    simp [concatMap_append, concatMap, List.append_assoc]

/-- Environment where every resolution succeeds at the HTTP level but
parses to the empty JSON object, used to exercise claim C10. -/
def envC10 : Env where
  getCluster := fun _ => some (JVal.obj [])
  getOpinion := fun _ => some (JVal.obj [])
  cleanHtml := fun s => s

theorem claim_C10_witness :
    processClusterDC envC10 (JVal.obj [])
        (.str "https://api/clusters/9/") = []
      ∧ processClusterCD envC10 "out" (JVal.obj [])
          (.str "https://api/clusters/9/") = [] :=
  (claim_C10 envC10 "out").1 (JVal.obj []) (.str "https://api/clusters/9/")
    (JVal.obj []) (by rfl) (by rfl)
